import Mathlib

/-!
Shallow embedding of the query-serving core of the influxdb storage service
(`services/storage/store.go`) and of the predicate compiler of the
`store tag-keys` command (`cmd/store/tagkeys/command.go`), together with
proofs about the embedded definitions.

Conventions:
* Go `string` is Lean `String`; Go's byte-lexicographic string order is
  modelled as the character-lexicographic order on `String.data` (they agree
  on the strings handled here).
* Go `(T, error)` results are `Except String T`; a `nil` pointer/slice result
  paired with a `nil` error is `Except.ok none` / `Except.ok []`.
* A Go runtime panic (out-of-range slicing) is modelled as `Option.none`.
* External collaborators (the metadata client, the TSDB store, the series
  cursor constructor) are parameters of the embedded functions, grouped in a
  `Collaborators` record.
-/

namespace Storage

/-- A measurement's tag keys (`tsdb.TagKeys`): the measurement name plus the
key list supplied by the per-shard tag index. -/
structure TagKeys where
  Measurement : String
  Keys : List String
  deriving DecidableEq, Inhabited

/-- Go's `<`/`≤` on strings is byte-lexicographic; we model `≤` as the
character-lexicographic order on `String.data`, which agrees with it here. -/
def strLe (a b : String) : Prop := a.data ≤ b.data

/-- Strict version of `strLe`, Go's `<` on strings. -/
def strLt (a b : String) : Prop := a.data < b.data

instance : DecidableRel strLe := fun a b =>
  inferInstanceAs (Decidable (a.data ≤ b.data))

instance : DecidableRel strLt := fun a b =>
  inferInstanceAs (Decidable (a.data < b.data))

instance : IsTotal String strLe := ⟨fun a b => le_total a.data b.data⟩

instance : IsTrans String strLe := ⟨fun _ _ _ h h' => le_trans h h'⟩

theorem strLt_of_strLe_of_ne {a b : String} (h : strLe a b) (hne : a ≠ b) :
    strLt a b := by
  refine lt_of_le_of_ne h fun hd => hne ?_
  cases a; cases b; simp only at hd; simp [hd]

theorem strLt_trans {a b c : String} (h : strLt a b) (h' : strLt b c) :
    strLt a c := lt_trans h h'

theorem strLe_of_strLt {a b : String} (h : strLt a b) : strLe a b := le_of_lt h

/-- `sort.Strings` (store.go line 171): sorts ascending by Go string `<`.
Since equal strings are identical values, the sorted result is the unique
`strLe`-sorted permutation, independent of the algorithm the standard library
uses; we realise it with insertion sort. -/
def sortStrings (s : List String) : List String := List.insertionSort strLe s

/-- The in-place dedupe loop of `MergeTagKeys` (store.go lines 174–180): `j`
is the read index, `i` the write index; each element that differs from the
last kept element `s[i-1]` is copied to position `i`.  Returns the final
slice contents and the final value of `i`. -/
def dedupeGo (s : List String) (i j : Nat) : List String × Nat :=
  if _h : j < s.length then
    if s.getD (i - 1) "" ≠ s.getD j "" then
      dedupeGo (s.set i (s.getD j "")) (i + 1) (j + 1)
    else
      dedupeGo s i (j + 1)
  else (s, i)
termination_by s.length - j
decreasing_by
  · simp only [List.length_set]; omega
  · omega

/-- `MergeTagKeys` (store.go lines 159–182).  One input: its key list is
returned as-is.  No input: `nil`.  Otherwise all key lists are concatenated,
sorted, and compacted with `dedupeGo`; the final Go expression `s[:i]` panics
(modelled as `none`) when `i` exceeds the capacity of `s`, which happens
exactly when the concatenation is empty (then `s` is the `nil` slice and
`i = 1`). -/
def MergeTagKeys (keys : List TagKeys) : Option (List String) :=
  if keys.length = 1 then some (keys.headD default).Keys
  else if keys.length = 0 then some []
  else
    let s := sortStrings ((keys.map TagKeys.Keys).flatten)
    let r := dedupeGo s 1 1
    if r.2 ≤ r.1.length then some (r.1.take r.2) else none

/-- Functional description of what the dedupe loop produces for the not yet
visited remainder of the slice, given the last kept element. -/
def compress (last : String) : List String → List String
  | [] => []
  | x :: xs => if last ≠ x then x :: compress x xs else compress last xs

theorem take_succ_set {α : Type} (s : List α) (i : Nat) (v : α)
    (h : i < s.length) : (s.set i v).take (i + 1) = s.take i ++ [v] := by
  induction s generalizing i with
  | nil => simp at h
  | cons a t ih =>
    cases i with
    | zero => simp
    | succ k =>
      simp only [List.set_cons_succ, List.take_succ_cons, List.cons_append]
      exact congrArg _ (ih k (by simpa using h))

theorem getD_set_self {α : Type} (s : List α) (i : Nat) (v d : α)
    (h : i < s.length) : (s.set i v).getD i d = v := by
  induction s generalizing i with
  | nil => simp at h
  | cons a t ih =>
    cases i with
    | zero => simp [List.getD]
    | succ k =>
      simp only [List.set_cons_succ]
      simpa [List.getD] using ih k (by simpa using h)

theorem drop_set_of_lt {α : Type} (s : List α) (i j : Nat) (v : α)
    (h : i < j) : (s.set i v).drop j = s.drop j := by
  induction s generalizing i j with
  | nil => simp
  | cons a t ih =>
    cases i with
    | zero =>
      cases j with
      | zero => omega
      | succ m => simp
    | succ k =>
      cases j with
      | zero => omega
      | succ m => simpa using ih k m (by omega)

theorem drop_eq_getD_cons {α : Type} (s : List α) (j : Nat) (d : α)
    (h : j < s.length) : s.drop j = s.getD j d :: s.drop (j + 1) := by
  induction s generalizing j with
  | nil => simp at h
  | cons a t ih =>
    cases j with
    | zero => simp [List.getD]
    | succ k =>
      simpa [List.getD] using ih k (by simpa using h)

/-- Loop invariant of `dedupeGo`: starting from write index `i` and read index
`j`, the kept prefix of the final slice is the current prefix of length `i`
followed by the compaction of the unread remainder against the last kept
element `s[i-1]`. -/
theorem dedupeGo_spec : ∀ (fuel : Nat) (s : List String) (i j : Nat),
    s.length - j ≤ fuel → 1 ≤ i → i ≤ j → j ≤ s.length →
    (dedupeGo s i j).1.length = s.length ∧
    (dedupeGo s i j).2 ≤ s.length ∧
    (dedupeGo s i j).1.take (dedupeGo s i j).2 =
      s.take i ++ compress (s.getD (i - 1) "") (s.drop j) := by
  intro fuel
  induction fuel with
  | zero =>
    intro s i j hfuel h1 hij hj
    have hjlen : s.length ≤ j := by omega
    rw [dedupeGo]
    have : ¬ j < s.length := by omega
    simp only [this, dif_neg, not_false_iff]
    refine ⟨by simp, by omega, ?_⟩
    rw [List.drop_eq_nil_of_le hjlen]
    simp [compress]
  | succ n ih =>
    intro s i j hfuel h1 hij hj
    by_cases hlt : j < s.length
    · rw [dedupeGo]
      simp only [dif_pos hlt]
      by_cases hne : s.getD (i - 1) "" ≠ s.getD j ""
      · simp only [if_pos hne]
        have hilen : i < s.length := by omega
        have ihres := ih (s.set i (s.getD j "")) (i + 1) (j + 1)
          (by simp only [List.length_set]; omega)
          (by omega) (by omega) (by simp only [List.length_set]; omega)
        refine ⟨by rw [ihres.1, List.length_set], ?_, ?_⟩
        · have := ihres.2.1; rw [List.length_set] at this; exact this
        · rw [ihres.2.2]
          have e1 : (s.set i (s.getD j "")).take (i + 1 - 1 + 1) =
              s.take i ++ [s.getD j ""] := by
            simpa using take_succ_set s i (s.getD j "") hilen
          have e2 : (s.set i (s.getD j "")).getD (i + 1 - 1) "" = s.getD j "" := by
            simpa using getD_set_self s i (s.getD j "") "" hilen
          have e3 : (s.set i (s.getD j "")).drop (j + 1) = s.drop (j + 1) :=
            drop_set_of_lt s i (j + 1) _ (by omega)
          have e4 : s.drop j = s.getD j "" :: s.drop (j + 1) :=
            drop_eq_getD_cons s j "" hlt
          rw [e2, e3, e4]
          have e5 : (s.set i (s.getD j "")).take (i + 1) =
              s.take i ++ [s.getD j ""] := by simpa using e1
          rw [show i + 1 - 1 = i from rfl] at *
          rw [e5, compress, if_pos hne, List.append_assoc]
          rfl
      · simp only [if_neg hne]
        push_neg at hne
        have ihres := ih s i (j + 1) (by omega) h1 (by omega) (by omega)
        refine ⟨ihres.1, ihres.2.1, ?_⟩
        rw [ihres.2.2]
        have e4 : s.drop j = s.getD j "" :: s.drop (j + 1) :=
          drop_eq_getD_cons s j "" hlt
        rw [e4, compress, ← hne]
        simp
    · rw [dedupeGo]
      simp only [dif_neg hlt]
      refine ⟨by simp, by omega, ?_⟩
      rw [List.drop_eq_nil_of_le (by omega)]
      simp [compress]

/-- On a `strLe`-sorted remainder, compaction yields a strictly increasing
list with the same elements. -/
theorem compress_sorted_mem : ∀ (l : List String) (last : String),
    List.Pairwise strLe (last :: l) →
    List.Pairwise strLt (last :: compress last l) ∧
    (∀ x, x ∈ last :: compress last l ↔ x ∈ last :: l) := by
  intro l
  induction l with
  | nil => intro last _; simp [compress]
  | cons x xs ih =>
    intro last hp
    rcases List.pairwise_cons.mp hp with ⟨hlast, hxxs⟩
    by_cases hne : last ≠ x
    · have ihres := ih x hxxs
      rw [compress, if_pos hne]
      constructor
      · refine List.pairwise_cons.mpr ⟨?_, ihres.1⟩
        intro z hz
        have hlx : strLt last x :=
          strLt_of_strLe_of_ne (hlast x (by simp)) hne
        rcases List.mem_cons.mp hz with h' | h'
        · subst h'; exact hlx
        · rcases List.pairwise_cons.mp ihres.1 with ⟨hx, _⟩
          exact strLt_trans hlx (hx z h')
      · intro y
        have := ihres.2 y
        simp only [List.mem_cons] at this ⊢
        tauto
    · push_neg at hne
      subst hne
      have hp' : List.Pairwise strLe (last :: xs) := by
        refine List.pairwise_cons.mpr ⟨?_, (List.pairwise_cons.mp hxxs).2⟩
        intro z hz
        exact hlast z (List.mem_cons.mpr (Or.inr hz))
      have ihres := ih last hp'
      rw [compress, if_neg (by simp)]
      refine ⟨ihres.1, ?_⟩
      intro y
      have := ihres.2 y
      simp only [List.mem_cons] at this ⊢
      tauto

theorem strLt_ne {a b : String} (h : strLt a b) : a ≠ b := by
  intro hab; subst hab; exact lt_irrefl _ h

/-- C9: for a non-empty key list, `MergeTagKeys` on exactly one measurement's
`TagKeys` returns exactly that key list, unmodified. -/
theorem mergeTagKeys_single (tk : TagKeys) (_h : tk.Keys ≠ []) :
    MergeTagKeys [tk] = some tk.Keys := by
  simp [MergeTagKeys]

/-- Witness for C9 at the single-measurement test case of `store_test.go`. -/
theorem mergeTagKeys_single_witness :
    (["aaa", "bbb", "ccc"] : List String) ≠ [] ∧
    MergeTagKeys [⟨"maaa", ["aaa", "bbb", "ccc"]⟩] = some ["aaa", "bbb", "ccc"] :=
  ⟨by decide, mergeTagKeys_single ⟨"maaa", ["aaa", "bbb", "ccc"]⟩ (by decide)⟩

/-- C1 counterexample: with a single measurement whose key list is not sorted,
`MergeTagKeys` returns it unchanged, so the output is not sorted ascending —
the claim fails without a sortedness precondition on the individual lists. -/
theorem mergeTagKeys_unsorted_single_cex :
    MergeTagKeys [⟨"m", ["bbb", "aaa"]⟩] = some ["bbb", "aaa"] ∧
    ¬ List.Pairwise strLe ["bbb", "aaa"] := by
  exact ⟨rfl, by decide⟩

/-- C1 (amended): if each measurement's key list is sorted ascending without
duplicates (the index invariant) and, when there are two or more measurements,
at least one key list is non-empty (otherwise the final `s[:i]` slice panics),
then `MergeTagKeys` succeeds and its output is sorted ascending, duplicate
free, and contains exactly the union of the inputs' keys. -/
theorem mergeTagKeys_sorted_nodup_union (keys : List TagKeys)
    (hsorted : ∀ tk ∈ keys, List.Pairwise strLt tk.Keys)
    (hne : 2 ≤ keys.length → (keys.map TagKeys.Keys).flatten ≠ []) :
    ∃ out, MergeTagKeys keys = some out ∧
      List.Pairwise strLt out ∧ out.Nodup ∧
      (∀ k, k ∈ out ↔ ∃ tk ∈ keys, k ∈ tk.Keys) := by
  by_cases h1 : keys.length = 1
  · obtain ⟨tk, rfl⟩ : ∃ tk, keys = [tk] := by
      match keys, h1 with
      | [tk], _ => exact ⟨tk, rfl⟩
    have hp := hsorted tk (by simp)
    refine ⟨tk.Keys, by simp [MergeTagKeys], hp,
      hp.imp fun h => strLt_ne h, ?_⟩
    intro k; simp
  · by_cases h0 : keys.length = 0
    · have hk : keys = [] := List.length_eq_zero.mp h0
      subst hk
      exact ⟨[], by simp [MergeTagKeys], by simp, by simp, by simp⟩
    · have h2 : 2 ≤ keys.length := by omega
      have hperm : (sortStrings ((keys.map TagKeys.Keys).flatten)).Perm
          ((keys.map TagKeys.Keys).flatten) := List.perm_insertionSort _ _
      have hsort : List.Pairwise strLe
          (sortStrings ((keys.map TagKeys.Keys).flatten)) :=
        List.sorted_insertionSort strLe _
      have hsne : sortStrings ((keys.map TagKeys.Keys).flatten) ≠ [] := by
        intro hnil
        apply hne h2
        rw [hnil] at hperm
        exact hperm.symm.eq_nil
      obtain ⟨x, xs, hxs⟩ := List.exists_cons_of_ne_nil hsne
      have hlen1 : 1 ≤ (sortStrings ((keys.map TagKeys.Keys).flatten)).length := by
        rw [hxs]; simp
      have hspec := dedupeGo_spec
        (sortStrings ((keys.map TagKeys.Keys).flatten)).length
        (sortStrings ((keys.map TagKeys.Keys).flatten)) 1 1
        (by omega) (by omega) (by omega) hlen1
      have hcomp := compress_sorted_mem xs x (by rw [hxs] at hsort; exact hsort)
      have hout : (dedupeGo (sortStrings ((keys.map TagKeys.Keys).flatten)) 1 1).1.take
          (dedupeGo (sortStrings ((keys.map TagKeys.Keys).flatten)) 1 1).2 =
          x :: compress x xs := by
        rw [hspec.2.2, hxs]
        simp [List.getD]
      refine ⟨x :: compress x xs, ?_, hcomp.1, hcomp.1.imp fun h => strLt_ne h, ?_⟩
      · simp only [MergeTagKeys, if_neg h1, if_neg h0]
        rw [if_pos (by rw [hspec.1]; exact hspec.2.1), hout]
      · intro k
        rw [hcomp.2 k, ← hxs]
        rw [hperm.mem_iff]
        simp only [List.mem_flatten, List.mem_map]
        constructor
        · rintro ⟨l, ⟨tk, htk, rfl⟩, hk⟩
          exact ⟨tk, htk, hk⟩
        · rintro ⟨tk, htk, hk⟩
          exact ⟨tk.Keys, ⟨tk, htk, rfl⟩, hk⟩

/-- Witness for C1 (amended) at the duplicate-collapsing test case of
`store_test.go`. -/
theorem mergeTagKeys_sorted_nodup_union_witness :
    ∃ out, MergeTagKeys
        [⟨"maaa", ["aaa", "bbb"]⟩, ⟨"mbbb", ["bbb", "eee", "fff"]⟩,
         ⟨"mccc", ["ccc", "ddd", "fff", "ggg"]⟩] = some out ∧
      List.Pairwise strLt out ∧ out.Nodup ∧
      (∀ k, k ∈ out ↔ ∃ tk ∈
        ([⟨"maaa", ["aaa", "bbb"]⟩, ⟨"mbbb", ["bbb", "eee", "fff"]⟩,
          ⟨"mccc", ["ccc", "ddd", "fff", "ggg"]⟩] : List TagKeys), k ∈ tk.Keys) :=
  mergeTagKeys_sorted_nodup_union _ (by decide) (by decide)

deriving instance DecidableEq for Except

/-- Engine-wide minimum valid nanosecond timestamp (`models.MinNanoTime`,
a collaborator constant: `math.MinInt64 + 2`). -/
def MinNanoTime : Int := -9223372036854775806

/-- Engine-wide maximum valid nanosecond timestamp (`models.MaxNanoTime`,
a collaborator constant: `math.MaxInt64 - 1`). -/
def MaxNanoTime : Int := 9223372036854775806

/-- The slice of `meta.DatabaseInfo` used here: the configured default
retention policy name and the names of the existing retention policies
(`di.RetentionPolicy(name)` returns non-nil exactly for members). -/
structure DatabaseInfo where
  DefaultRetentionPolicy : String
  RetentionPolicies : List String
  deriving DecidableEq

/-- `strings.IndexByte(database, '/')` on the character list: the index of the
first `/`, if any. -/
def indexSlash : List Char → Option Nat
  | [] => none
  | c :: cs => if c = '/' then some 0 else (indexSlash cs).map (· + 1)

/-- The split of store.go lines 60–62: the part before the first `/` is the
database, the part after it (possibly empty or containing further slashes) is
the retention policy; with no `/` the retention policy stays empty. -/
def splitDB (database : String) : String × String :=
  match indexSlash database.data with
  | none => (database, "")
  | some p => (⟨database.data.take p⟩, ⟨database.data.drop (p + 1)⟩)

/-- `Store.validateArgs` (store.go lines 58–87): splits the raw database
argument on the first `/`, looks the database up with the metadata
collaborator, substitutes the configured default for an empty retention
policy, checks the policy exists, and replaces non-positive bounds by the
engine sentinels.  The diagnostic log line (line 64) does not affect the
result and is not modelled.  Note the function performs no comparison between
`start` and `end_`. -/
def validateArgs (databases : String → Option DatabaseInfo)
    (database : String) (start end_ : Int) :
    Except String (String × String × Int × Int) :=
  let p := splitDB database
  match databases p.1 with
  | none => Except.error "no database"
  | some di =>
    let rp := if p.2 = "" then di.DefaultRetentionPolicy else p.2
    if rp ∈ di.RetentionPolicies then
      Except.ok (p.1, rp,
        (if start ≤ 0 then MinNanoTime else start),
        (if end_ ≤ 0 then MaxNanoTime else end_))
    else Except.error "invalid retention policy"

/-- Shared helper: what a successful `validateArgs` returns. -/
theorem validateArgs_ok_bounds (databases : String → Option DatabaseInfo)
    (database : String) (start end_ : Int) (d r : String) (s e : Int)
    (h : validateArgs databases database start end_ =
      Except.ok (d, r, s, e)) :
    s = (if start ≤ 0 then MinNanoTime else start) ∧
    e = (if end_ ≤ 0 then MaxNanoTime else end_) := by
  simp only [validateArgs] at h
  cases hdb : databases (splitDB database).1 with
  | none => rw [hdb] at h; exact absurd h (by simp)
  | some di =>
    rw [hdb] at h
    simp only at h
    by_cases hrp : (if (splitDB database).2 = "" then di.DefaultRetentionPolicy
        else (splitDB database).2) ∈ di.RetentionPolicies
    · rw [if_pos hrp] at h
      injection h with h
      injection h with _ h
      injection h with _ h
      injection h with h1 h2
      exact ⟨h1.symm, h2.symm⟩
    · rw [if_neg hrp] at h
      exact absurd h (by simp)

/-- C6: whenever `validateArgs` succeeds, the returned start is the input
start with any non-positive value replaced by the engine minimum, and the
returned end is the input end with any non-positive value replaced by the
engine maximum; positive bounds pass through unchanged. -/
theorem validateArgs_normalizes_bounds
    (databases : String → Option DatabaseInfo)
    (database : String) (start end_ : Int) (d r : String) (s e : Int)
    (h : validateArgs databases database start end_ =
      Except.ok (d, r, s, e)) :
    s = (if start ≤ 0 then MinNanoTime else start) ∧
    e = (if end_ ≤ 0 then MaxNanoTime else end_) :=
  validateArgs_ok_bounds databases database start end_ d r s e h

/-- An example metadata database table: one database `db` whose only
retention policy is its default `rp`. -/
def dbsEx : String → Option DatabaseInfo := fun d =>
  if d = "db" then some ⟨"rp", ["rp"]⟩ else none

/-- Witness for C6: both bounds non-positive are replaced by the sentinels. -/
theorem validateArgs_normalizes_bounds_witness :
    MinNanoTime = (if (-1 : Int) ≤ 0 then MinNanoTime else (-1 : Int)) ∧
    MaxNanoTime = (if (0 : Int) ≤ 0 then MaxNanoTime else (0 : Int)) :=
  validateArgs_normalizes_bounds dbsEx "db" (-1) 0 "db" "rp"
    MinNanoTime MaxNanoTime (by decide)

/-- C3 counterexample: `validateArgs` succeeds on a positive start that
exceeds a positive end and returns the inverted range unchanged — there is no
`InvalidRange` failure in the code. -/
theorem validateArgs_no_range_check_cex :
    validateArgs dbsEx "db" 5 3 = Except.ok ("db", "rp", 5, 3) ∧
    ¬ ((5 : Int) ≤ 3) :=
  ⟨by decide, by decide⟩

/-- C3 (amended): `validateArgs` never compares the bounds, so success does
not in general ensure `start ≤ end`; but when the start bound is non-positive
(and hence replaced by the engine minimum), the returned start cannot exceed
the returned end. -/
theorem validateArgs_start_le_end_of_nonpos
    (databases : String → Option DatabaseInfo)
    (database : String) (start end_ : Int) (d r : String) (s e : Int)
    (h : validateArgs databases database start end_ =
      Except.ok (d, r, s, e))
    (hstart : start ≤ 0) : s ≤ e := by
  obtain ⟨hs, he⟩ :=
    validateArgs_ok_bounds databases database start end_ d r s e h
  rw [hs, he, if_pos hstart]
  by_cases hend : end_ ≤ 0
  · rw [if_pos hend]; unfold MinNanoTime MaxNanoTime; omega
  · rw [if_neg hend]; unfold MinNanoTime; omega

/-- Witness for C3 (amended): a non-positive start with a positive end. -/
theorem validateArgs_start_le_end_of_nonpos_witness :
    MinNanoTime ≤ (7 : Int) :=
  validateArgs_start_le_end_of_nonpos dbsEx "db" (-5) 7 "db" "rp"
    MinNanoTime 7 (by decide) (by decide)

/-- A shard record (`meta.ShardInfo`): only the id is used here.  The Go id is
a `uint64`; ids are only copied, never computed with, so `Nat` is faithful. -/
structure ShardInfo where
  ID : Nat
  deriving DecidableEq

/-- The slice of `meta.ShardGroupInfo` used here: the group start time (in
nanoseconds, the key of the collaborator's ordering) and the member shards in
stored order. -/
structure ShardGroupInfo where
  StartTime : Int
  Shards : List ShardInfo
  deriving DecidableEq

/-- Modelled from the spec: the `Less` of `meta.ShardGroupInfos` (metadata
collaborator code, not under `src/`), which per the spec "orders groups by
group start time": `sgLess a b` holds when `a` starts strictly before `b`. -/
def sgLess (a b : ShardGroupInfo) : Bool := decide (a.StartTime < b.StartTime)

/-- The documented contract of Go's `sort.Sort` for the two comparators this
code hands it (`sort.Sort(groups)` and `sort.Sort(sort.Reverse(groups))`,
store.go lines 43–47): the result is a permutation of the input in which no
later element is `Less` than an earlier one.  `sort.Sort` explicitly does not
guarantee stability, so nothing is assumed about how equivalent elements are
arranged. -/
def SortSortContract
    (sortFn : (ShardGroupInfo → ShardGroupInfo → Bool) →
      List ShardGroupInfo → List ShardGroupInfo) : Prop :=
  ∀ l : List ShardGroupInfo,
    ((sortFn sgLess l).Perm l ∧
      List.Pairwise (fun a b => sgLess b a = false) (sortFn sgLess l)) ∧
    ((sortFn (fun a b => sgLess b a) l).Perm l ∧
      List.Pairwise (fun a b => sgLess a b = false)
        (sortFn (fun a b => sgLess b a) l))

/-- `Store.findShardIDs` (store.go lines 33–56), parameterised by the sorting
routine standing in for Go's `sort.Sort` (whose algorithm lives outside this
repository and is constrained only by `SortSortContract`) and by the metadata
collaborator `ShardGroupsByTimeRange`.  Collaborator failures propagate; zero
groups yield the empty (nil) id list; otherwise the groups are sorted —
reversed comparator when `desc` — and each group's shard ids are appended in
stored order. -/
def findShardIDs
    (sortFn : (ShardGroupInfo → ShardGroupInfo → Bool) →
      List ShardGroupInfo → List ShardGroupInfo)
    (shardGroupsByTimeRange :
      String → String → Int → Int → Except String (List ShardGroupInfo))
    (database rp : String) (desc : Bool) (start end_ : Int) :
    Except String (List Nat) :=
  match shardGroupsByTimeRange database rp start end_ with
  | Except.error e => Except.error e
  | Except.ok groups =>
    if groups.length = 0 then Except.ok []
    else
      let sorted := if desc then sortFn (fun a b => sgLess b a) groups
        else sortFn sgLess groups
      Except.ok ((sorted.map (fun g => g.Shards.map ShardInfo.ID)).flatten)

/-- C4 (amended): for any sorting routine meeting `sort.Sort`'s contract,
whenever the metadata collaborator answers with a group list, `findShardIDs`
succeeds and its output flattens, in order, the shard ids of a permutation of
the groups that is ordered by group start time — ascending for
`desc = false`, descending for `desc = true` — with each group's shards kept
in stored order.  Nothing relates the order of equal-start groups to the
collaborator's order. -/
theorem findShardIDs_ordered
    (sortFn : (ShardGroupInfo → ShardGroupInfo → Bool) →
      List ShardGroupInfo → List ShardGroupInfo)
    (hc : SortSortContract sortFn)
    (shardGroupsByTimeRange :
      String → String → Int → Int → Except String (List ShardGroupInfo))
    (database rp : String) (desc : Bool) (start end_ : Int)
    (groups : List ShardGroupInfo)
    (hok : shardGroupsByTimeRange database rp start end_ =
      Except.ok groups) :
    ∃ groups', findShardIDs sortFn shardGroupsByTimeRange database rp desc
        start end_ =
        Except.ok ((groups'.map (fun g => g.Shards.map ShardInfo.ID)).flatten) ∧
      groups'.Perm groups ∧
      List.Pairwise (fun a b => if desc then b.StartTime ≤ a.StartTime
        else a.StartTime ≤ b.StartTime) groups' := by
  simp only [findShardIDs, hok]
  by_cases h0 : groups.length = 0
  · rw [if_pos h0]
    have : groups = [] := List.length_eq_zero.mp h0
    subst this
    exact ⟨[], by simp, List.Perm.refl _, by simp⟩
  · rw [if_neg h0]
    cases desc with
    | false =>
      refine ⟨sortFn sgLess groups, by simp, (hc groups).1.1, ?_⟩
      refine ((hc groups).1.2).imp ?_
      intro a b hab
      simp only [sgLess, decide_eq_false_iff_not, not_lt] at hab
      simpa using hab
    | true =>
      refine ⟨sortFn (fun a b => sgLess b a) groups, by simp,
        (hc groups).2.1, ?_⟩
      refine ((hc groups).2.2).imp ?_
      intro a b hab
      simp only [sgLess, decide_eq_false_iff_not, not_lt] at hab
      simpa using hab

/-- The first shard id of a group (`0` for a group with no shards); used only
as a tie-breaking key by `badSort`. -/
def headID (g : ShardGroupInfo) : Nat := (g.Shards.headD ⟨0⟩).ID

/-- The order `badSort` sorts by: the given comparator first, and among
elements the comparator considers equivalent, descending first-shard id. -/
def badSortRel (less : ShardGroupInfo → ShardGroupInfo → Bool)
    (a b : ShardGroupInfo) : Prop :=
  less a b = true ∨ (less a b = false ∧ less b a = false ∧ headID b ≤ headID a)

instance (less : ShardGroupInfo → ShardGroupInfo → Bool) :
    DecidableRel (badSortRel less) := fun a b => by
  unfold badSortRel; infer_instance

/-- A sorting routine satisfying `SortSortContract` that is deliberately not
stable: elements the comparator considers equivalent come out in descending
first-shard-id order, regardless of their input order.  Go's `sort.Sort` is
free to behave like this, since its contract says nothing about equivalent
elements. -/
def badSort (less : ShardGroupInfo → ShardGroupInfo → Bool)
    (l : List ShardGroupInfo) : List ShardGroupInfo :=
  List.insertionSort (badSortRel less) l

theorem badSort_contract : SortSortContract badSort := by
  intro l
  constructor
  · refine ⟨List.perm_insertionSort _ _, ?_⟩
    haveI ht : IsTotal ShardGroupInfo (badSortRel sgLess) := by
      constructor
      intro a b
      simp only [badSortRel, sgLess, decide_eq_true_eq, decide_eq_false_iff_not]
      omega
    haveI htr : IsTrans ShardGroupInfo (badSortRel sgLess) := by
      constructor
      intro a b c
      simp only [badSortRel, sgLess, decide_eq_true_eq, decide_eq_false_iff_not]
      omega
    have h := List.sorted_insertionSort (badSortRel sgLess) l
    refine h.imp ?_
    intro a b hab
    simp only [badSortRel, sgLess, decide_eq_true_eq,
      decide_eq_false_iff_not] at hab
    simp only [sgLess, decide_eq_false_iff_not, not_lt]
    omega
  · refine ⟨List.perm_insertionSort _ _, ?_⟩
    haveI ht : IsTotal ShardGroupInfo (badSortRel (fun a b => sgLess b a)) := by
      constructor
      intro a b
      simp only [badSortRel, sgLess, decide_eq_true_eq, decide_eq_false_iff_not]
      omega
    haveI htr : IsTrans ShardGroupInfo (badSortRel (fun a b => sgLess b a)) := by
      constructor
      intro a b c
      simp only [badSortRel, sgLess, decide_eq_true_eq, decide_eq_false_iff_not]
      omega
    have h := List.sorted_insertionSort (badSortRel (fun a b => sgLess b a)) l
    refine h.imp ?_
    intro a b hab
    simp only [badSortRel, sgLess, decide_eq_true_eq,
      decide_eq_false_iff_not] at hab
    simp only [sgLess, decide_eq_false_iff_not, not_lt]
    omega

/-- A metadata collaborator answering every shard-group query with two groups
that have the same start time: first the group holding shard `1`, then the
group holding shard `2`. -/
def sgOracleEx :
    String → String → Int → Int → Except String (List ShardGroupInfo) :=
  fun _ _ _ _ => Except.ok [⟨10, [⟨1⟩]⟩, ⟨10, [⟨2⟩]⟩]

/-- C4 counterexample: the claim's stable tie-break fails.  For the two
equal-start groups supplied by `sgOracleEx` in the order shard `1`, shard `2`,
the claim demands the output `[1, 2]`; but `sort.Sort`'s contract admits the
behaviour `badSort`, under which `findShardIDs` returns `[2, 1]`. -/
theorem findShardIDs_stable_tie_cex :
    ¬ (∀ sortFn, SortSortContract sortFn →
        findShardIDs sortFn sgOracleEx "db" "rp" false 1 2 =
          Except.ok [1, 2]) := by
  intro h
  have hbad := h badSort badSort_contract
  have : findShardIDs badSort sgOracleEx "db" "rp" false 1 2 =
      Except.ok [2, 1] := by decide
  rw [this] at hbad
  exact absurd hbad (by decide)

/-- Witness for C4 (amended) at `badSort` and the equal-start collaborator. -/
theorem findShardIDs_ordered_witness :
    ∃ groups' : List ShardGroupInfo,
      findShardIDs badSort sgOracleEx "db" "rp" false 1 2 =
        Except.ok ((groups'.map (fun g => g.Shards.map ShardInfo.ID)).flatten) ∧
      groups'.Perm ([⟨10, [⟨1⟩]⟩, ⟨10, [⟨2⟩]⟩] : List ShardGroupInfo) ∧
      List.Pairwise (fun a b : ShardGroupInfo =>
        if false then b.StartTime ≤ a.StartTime
        else a.StartTime ≤ b.StartTime) groups' :=
  findShardIDs_ordered badSort badSort_contract sgOracleEx "db" "rp" false 1 2
    [⟨10, [⟨1⟩]⟩, ⟨10, [⟨2⟩]⟩] rfl

/-- The `TimestampRange` of the read request message. -/
structure TimestampRange where
  Start : Int
  End : Int
  deriving DecidableEq

/-- An aggregate specification; collaborator-owned and carried opaquely
through `Read` (its contents are never inspected here). -/
abbrev AggregateSpec := Nat

/-- The read request message (transport collaborator): exactly the fields
`Store.Read` uses. -/
structure ReadRequest where
  Database : String
  TimestampRange : TimestampRange
  Descending : Bool
  Grouping : List String
  SeriesLimit : Int
  SeriesOffset : Int
  PointsLimit : Int
  Aggregate : Option AggregateSpec
  deriving DecidableEq

/-- The composed cursor chain (store.go lines 100–115): the base scan cursor
handle produced by the collaborator `newIndexSeriesCursor`, optionally
wrapped by the grouping stage and then by the limit stage
(`newGroupSeriesCursor` / `newLimitSeriesCursor`, series_cursor.go, outside
`src/`; each stage wraps exactly the cursor beneath it). -/
inductive SeriesCursor where
  | index (handle : Nat)
  | group (inner : SeriesCursor) (keys : List String)
  | limit (inner : SeriesCursor) (limit offset : Int)
  deriving DecidableEq

/-- `readRequest` (store.go lines 118–125): the read options captured in the
result set.  The `ctx` field is not modelled. -/
structure readRequest where
  start : Int
  end_ : Int
  asc : Bool
  limit : Int
  aggregate : Option AggregateSpec
  deriving DecidableEq

/-- `ResultSet` as constructed by `Store.Read` (store.go lines 117–127). -/
structure ResultSet where
  req : readRequest
  cur : SeriesCursor
  deriving DecidableEq

/-- The collaborators `Store.Read` calls out to: the metadata client's
`Database`, its `ShardGroupsByTimeRange`, `TSDBStore.Shards` (shard handles
carried as opaque numbers), and the base-scan constructor
`newIndexSeriesCursor` (series_cursor.go, outside `src/`), which may fail,
report zero matching series anywhere (`ok none`), or yield a cursor
handle. -/
structure Collaborators where
  databases : String → Option DatabaseInfo
  shardGroupsByTimeRange :
    String → String → Int → Int → Except String (List ShardGroupInfo)
  shards : List Nat → List Nat
  newIndexSeriesCursor : ReadRequest → List Nat → Except String (Option Nat)

/-- `Store.Read` (store.go lines 89–128): resolve the request, select shard
ids, build the base scan — returning a nil result set with a nil error when
it reports no matching series — then wrap the optional grouping and
limit/offset stages and package the result set with its read options. -/
def Read (c : Collaborators)
    (sortFn : (ShardGroupInfo → ShardGroupInfo → Bool) →
      List ShardGroupInfo → List ShardGroupInfo)
    (req : ReadRequest) : Except String (Option ResultSet) :=
  match validateArgs c.databases req.Database req.TimestampRange.Start
      req.TimestampRange.End with
  | Except.error e => Except.error e
  | Except.ok (database, rp, start, end_) =>
    match findShardIDs sortFn c.shardGroupsByTimeRange database rp
        req.Descending start end_ with
    | Except.error e => Except.error e
    | Except.ok shardIDs =>
      match c.newIndexSeriesCursor req (c.shards shardIDs) with
      | Except.error e => Except.error e
      | Except.ok none => Except.ok none
      | Except.ok (some ic) =>
        let cur := SeriesCursor.index ic
        let cur := if req.Grouping.length > 0 then
            SeriesCursor.group cur req.Grouping else cur
        let cur := if req.SeriesLimit > 0 ∨ req.SeriesOffset > 0 then
            SeriesCursor.limit cur req.SeriesLimit req.SeriesOffset else cur
        Except.ok (some ⟨⟨start, end_, !req.Descending, req.PointsLimit,
          req.Aggregate⟩, cur⟩)

/-- C5: when resolution and shard selection succeed but the base-scan
construction reports zero matching series across all selected shards
(`newIndexSeriesCursor` yields no cursor), `Read` returns a nil result set
together with a nil error — a non-error no-results outcome, distinguishable
by construction from any `Except.error` resolution failure. -/
theorem read_no_series_ok_none (c : Collaborators)
    (sortFn : (ShardGroupInfo → ShardGroupInfo → Bool) →
      List ShardGroupInfo → List ShardGroupInfo)
    (req : ReadRequest) (d r : String) (s e : Int) (ids : List Nat)
    (h1 : validateArgs c.databases req.Database req.TimestampRange.Start
      req.TimestampRange.End = Except.ok (d, r, s, e))
    (h2 : findShardIDs sortFn c.shardGroupsByTimeRange d r req.Descending s e
      = Except.ok ids)
    (h3 : c.newIndexSeriesCursor req (c.shards ids) = Except.ok none) :
    Read c sortFn req = Except.ok none := by
  simp only [Read, h1, h2, h3]

/-- An example read request for database `db` over the range `[1, 2]`. -/
def reqEx : ReadRequest := ⟨"db", ⟨1, 2⟩, false, [], 0, 0, 0, none⟩

/-- Collaborators for the C5 witness: known database `db`, two equal-start
shard groups, identity shard handles, and a base scan finding no series. -/
def cEx : Collaborators :=
  ⟨dbsEx, sgOracleEx, fun l => l, fun _ _ => Except.ok none⟩

/-- Witness for C5 at `cEx`. -/
theorem read_no_series_ok_none_witness :
    Read cEx badSort reqEx = Except.ok none :=
  read_no_series_ok_none cEx badSort reqEx "db" "rp" 1 2 [2, 1]
    (by decide) (by decide) (by decide)

/-- C8: when the database part of the request (before the first slash) is
unknown to the metadata collaborator, `Read` fails with the NotFound error
`"no database"` — and it does so for every shard-group oracle `sg`, so the
outcome cannot depend on any shard-group lookup. -/
theorem read_unknown_database (dbs : String → Option DatabaseInfo)
    (sg : String → String → Int → Int → Except String (List ShardGroupInfo))
    (sh : List Nat → List Nat)
    (nisc : ReadRequest → List Nat → Except String (Option Nat))
    (sortFn : (ShardGroupInfo → ShardGroupInfo → Bool) →
      List ShardGroupInfo → List ShardGroupInfo)
    (req : ReadRequest)
    (h : dbs (splitDB req.Database).1 = none) :
    Read ⟨dbs, sg, sh, nisc⟩ sortFn req = Except.error "no database" := by
  have hv : validateArgs dbs req.Database req.TimestampRange.Start
      req.TimestampRange.End = Except.error "no database" := by
    simp only [validateArgs, h]
  simp only [Read, hv]

/-- Witness for C8: an empty metadata directory. -/
theorem read_unknown_database_witness :
    Read ⟨fun _ => none, sgOracleEx, fun l => l,
      fun _ _ => Except.ok none⟩ badSort reqEx =
      Except.error "no database" :=
  read_unknown_database (fun _ => none) sgOracleEx (fun l => l)
    (fun _ _ => Except.ok none) badSort reqEx rfl

/-- The tag-key-values request message; collaborator-owned and carried
opaquely (no field of it is ever read). -/
structure ReadTagKeyValuesRequest where
  payload : Nat
  deriving DecidableEq

/-- `Store.ReadTagKeyValues` (store.go lines 155–157): `return nil, nil`,
unconditionally.  The Go result type is `interface{}`, modelled as an opaque
optional value. -/
def ReadTagKeyValues (_req : ReadTagKeyValuesRequest) :
    Except String (Option Unit) :=
  Except.ok none

/-- C10: for every request, `ReadTagKeyValues` returns a nil result together
with a nil error — an unimplemented stub that never fails and never produces
data. -/
theorem readTagKeyValues_stub (req : ReadTagKeyValuesRequest) :
    ReadTagKeyValues req = Except.ok none := rfl

/-- The influxql binary-operator tokens relevant to the predicate compiler:
the six comparisons, the two logical connectives, and a selection of the
remaining influxql operator tokens (which the compiler must reject).
`tokenString` is `influxql.Token.String()` for these tokens, the text
interpolated into the error message by `%s`. -/
inductive Token where
  | EQ | NEQ | LT | LTE | GT | GTE | AND | OR
  | ADD | SUB | MUL | DIV | MOD | EQREGEX | NEQREGEX
  deriving DecidableEq

def tokenString : Token → String
  | .EQ => "="
  | .NEQ => "!="
  | .LT => "<"
  | .LTE => "<="
  | .GT => ">"
  | .GTE => ">="
  | .AND => "AND"
  | .OR => "OR"
  | .ADD => "+"
  | .SUB => "-"
  | .MUL => "*"
  | .DIV => "/"
  | .MOD => "%"
  | .EQREGEX => "=~"
  | .NEQREGEX => "!~"

/-- `storage.Node_Comparison` values. -/
inductive Comparison where
  | equal | notEqual | less | lessEqual | greater | greaterEqual
  deriving DecidableEq

/-- `storage.Node_Logical` values. -/
inductive Logical where
  | and | or
  deriving DecidableEq

/-- `storage.NodeType` tags. -/
inductive NodeType where
  | comparisonExpression | logicalExpression | parenExpression
  | literal | tagRef
  deriving DecidableEq

/-- The `Value` oneof of a wire `Node`.  Go float64 literal payloads are
carried as their (never inspected) bit patterns. -/
inductive NodeValue where
  | comparison (c : Comparison)
  | logical (l : Logical)
  | stringValue (v : String)
  | floatValue (bits : Nat)
  | integerValue (v : Int)
  | unsignedValue (v : Nat)
  | tagRefValue (v : String)
  deriving DecidableEq

/-- The wire predicate tree `storage.Node`: a type tag, an optional value
payload (nil on parenthesization nodes), and the child nodes. -/
inductive Node where
  | node (nodeType : NodeType) (value : Option NodeValue) (children : List Node)

mutual

def nodeDecEq : (a b : Node) → Decidable (a = b)
  | .node nt1 v1 c1, .node nt2 v2 c2 =>
    if h1 : nt1 = nt2 then
      if h2 : v1 = v2 then
        match listNodeDecEq c1 c2 with
        | isTrue h3 => isTrue (by rw [h1, h2, h3])
        | isFalse h3 => isFalse (by intro h; injection h; contradiction)
      else isFalse (by intro h; injection h; contradiction)
    else isFalse (by intro h; injection h; contradiction)

def listNodeDecEq : (a b : List Node) → Decidable (a = b)
  | [], [] => isTrue rfl
  | [], _ :: _ => isFalse (by intro h; injection h)
  | _ :: _, [] => isFalse (by intro h; injection h)
  | x :: xs, y :: ys =>
    match nodeDecEq x y, listNodeDecEq xs ys with
    | isTrue h1, isTrue h2 => isTrue (by rw [h1, h2])
    | isFalse h1, _ => isFalse (by intro h; injection h; contradiction)
    | _, isFalse h2 => isFalse (by intro h; injection h; contradiction)

end

instance : DecidableEq Node := nodeDecEq

/-- Expected child count per node type — §3's arity invariant. -/
def arityFor : NodeType → Nat
  | .comparisonExpression => 2
  | .logicalExpression => 2
  | .parenExpression => 1
  | .literal => 0
  | .tagRef => 0

mutual

/-- The arity invariant checked over a whole tree: every node has exactly
`arityFor` its type many children. -/
def nodeArityOK : Node → Bool
  | .node nt _ children =>
    (children.length == arityFor nt) && nodeListArityOK children

/-- `nodeArityOK` over each tree of a list. -/
def nodeListArityOK : List Node → Bool
  | [] => true
  | n :: ns => nodeArityOK n && nodeListArityOK ns

end

/-- The influxql expression shapes the visitor distinguishes
(`influxql.BinaryExpr`, `ParenExpr`, the four literal kinds, `VarRef`), plus
`other`, standing for every remaining `influxql.Node` shape (regex literals,
calls, wildcards, …), which all hit the visitor's default case.  Number
literals carry their float64 bit pattern, never inspected. -/
inductive Expr where
  | binary (op : Token) (lhs rhs : Expr)
  | paren (e : Expr)
  | stringLit (v : String)
  | numberLit (bits : Nat)
  | integerLit (v : Int)
  | unsignedLit (v : Nat)
  | varRef (v : String)
  | other
  deriving DecidableEq

/-- The `exprToNodeVisitor` state: the operand stack `nodes` (the Go slice
keeps the top at its end; here the top is the head — a pure representation
choice) and the recorded error. -/
structure VisitorState where
  nodes : List Node
  err : Option String
  deriving DecidableEq

/-- `mapOpToComparison` (command.go lines 224–242); `none` models the `-1`
returned for tokens that are not comparison operators. -/
def mapOpToComparison : Token → Option Comparison
  | .EQ => some .equal
  | .NEQ => some .notEqual
  | .LT => some .less
  | .LTE => some .lessEqual
  | .GT => some .greater
  | .GTE => some .greaterEqual
  | _ => none

/-- `exprToNodeVisitor.Visit` driving `influxql.Walk` (command.go lines
244–339).  Every case returns a nil visitor after walking its own operands
itself, so the whole traversal is exactly this recursion.  `pop`/`pop2`
panic on stack underflow; a panic is modelled as `none`.  The source checks
`v.err` on entering a binary expression and after each of its operand walks,
after the inner walk of a parenthesized expression, and not at all in the
leaf cases — faithfully mirrored here. -/
def visit (s : VisitorState) : Expr → Option VisitorState
  | .binary op lhs rhs =>
    if s.err.isSome then some s
    else
      match visit s lhs with
      | none => none
      | some s1 =>
        if s1.err.isSome then some s1
        else
          match visit s1 rhs with
          | none => none
          | some s2 =>
            if s2.err.isSome then some s2
            else
              match mapOpToComparison op with
              | some comp =>
                match s2.nodes with
                | rhsN :: lhsN :: rest =>
                  some ⟨Node.node .comparisonExpression
                      (some (NodeValue.comparison comp)) [lhsN, rhsN] :: rest,
                    s2.err⟩
                | _ => none
              | none =>
                if op = .AND ∨ op = .OR then
                  match s2.nodes with
                  | rhsN :: lhsN :: rest =>
                    some ⟨Node.node .logicalExpression
                        (some (NodeValue.logical
                          (if op = .AND then .and else .or)))
                        [lhsN, rhsN] :: rest,
                      s2.err⟩
                  | _ => none
                else
                  some ⟨s2.nodes,
                    some ("unsupported operator, " ++ tokenString op)⟩
  | .paren e =>
    match visit s e with
    | none => none
    | some s1 =>
      if s1.err.isSome then some s1
      else
        match s1.nodes with
        | top :: rest =>
          some ⟨Node.node .parenExpression none [top] :: rest, s1.err⟩
        | _ => none
  | .stringLit v =>
    some ⟨Node.node .literal (some (NodeValue.stringValue v)) [] :: s.nodes,
      s.err⟩
  | .numberLit bits =>
    some ⟨Node.node .literal (some (NodeValue.floatValue bits)) [] :: s.nodes,
      s.err⟩
  | .integerLit v =>
    some ⟨Node.node .literal (some (NodeValue.integerValue v)) [] :: s.nodes,
      s.err⟩
  | .unsignedLit v =>
    some ⟨Node.node .literal (some (NodeValue.unsignedValue v)) [] :: s.nodes,
      s.err⟩
  | .varRef v =>
    some ⟨Node.node .tagRef (some (NodeValue.tagRefValue v)) [] :: s.nodes,
      s.err⟩
  | .other =>
    some ⟨s.nodes, some "unsupported expression"⟩

/-- True when the expression contains none of the shapes the visitor's
default case rejects. -/
def supportedShapes : Expr → Bool
  | .binary _ lhs rhs => supportedShapes lhs && supportedShapes rhs
  | .paren e => supportedShapes e
  | .other => false
  | _ => true

/-- True when the compiler accepts `op`: a comparison, or AND, or OR. -/
def supportedOp (op : Token) : Bool :=
  (mapOpToComparison op).isSome || op = Token.AND || op = Token.OR

/-- True when some binary node of the expression carries an operator the
compiler does not accept. -/
def hasBadOp : Expr → Bool
  | .binary op lhs rhs => !supportedOp op || hasBadOp lhs || hasBadOp rhs
  | .paren e => hasBadOp e
  | _ => false

/-- True when token `op` occurs as a binary operator in the expression. -/
def opOccurs (op : Token) : Expr → Bool
  | .binary op' lhs rhs => op' = op || opOccurs op lhs || opOccurs op rhs
  | .paren e => opOccurs op e
  | _ => false

theorem nodeArityOK_two (nt : NodeType) (v : Option NodeValue) (l r : Node)
    (h : arityFor nt = 2) (hl : nodeArityOK l = true)
    (hr : nodeArityOK r = true) :
    nodeArityOK (Node.node nt v [l, r]) = true := by
  rw [nodeArityOK, h]
  simp [nodeListArityOK, hl, hr]

theorem nodeArityOK_one (nt : NodeType) (v : Option NodeValue) (c : Node)
    (h : arityFor nt = 1) (hc : nodeArityOK c = true) :
    nodeArityOK (Node.node nt v [c]) = true := by
  rw [nodeArityOK, h]
  simp [nodeListArityOK, hc]

theorem nodeArityOK_zero (nt : NodeType) (v : Option NodeValue)
    (h : arityFor nt = 0) :
    nodeArityOK (Node.node nt v []) = true := by
  rw [nodeArityOK, h]
  simp [nodeListArityOK]

/-- Master invariant of the visitor, by structural induction: started with no
recorded error, a visit never underflows the operand stack (never panics),
and (a) on an expression of supported shapes without unsupported operators it
leaves no error and pushes exactly one arity-correct node on the stack,
(b) on supported shapes containing an unsupported operator it records the
unsupported-operator message of an operator occurring in the expression, and
(c) on an expression containing an unsupported shape it records some
error. -/
theorem visit_master (e : Expr) : ∀ (s : VisitorState), s.err = none →
    ∃ s', visit s e = some s' ∧
      ((supportedShapes e = true → hasBadOp e = false →
        s'.err = none ∧
          ∃ n, nodeArityOK n = true ∧ s'.nodes = n :: s.nodes) ∧
       (supportedShapes e = true → hasBadOp e = true →
        ∃ op, supportedOp op = false ∧ opOccurs op e = true ∧
          s'.err = some ("unsupported operator, " ++ tokenString op)) ∧
       (supportedShapes e = false → s'.err.isSome = true)) := by
  induction e with
  | binary op lhs rhs ihl ihr =>
    intro s hs
    obtain ⟨s1, h1, hA1, hB1, hC1⟩ := ihl s hs
    simp only [visit, hs, Option.isSome_none, Bool.false_eq_true, if_false, h1]
    by_cases hsl : supportedShapes lhs = true
    · by_cases hbl : hasBadOp lhs = true
      · -- a bad operator inside the left operand: error recorded, return s1
        obtain ⟨op', hop1, hop2, hop3⟩ := hB1 hsl hbl
        refine ⟨s1, by simp [hop3], ?_, ?_, ?_⟩
        · intro _ habs
          rw [hasBadOp] at habs
          simp [hbl] at habs
        · intro _ _
          exact ⟨op', hop1, by simp [opOccurs, hop2], hop3⟩
        · intro _
          simp [hop3]
      · -- clean left operand: one node pushed
        obtain ⟨herr1, l, hl, hn1⟩ := hA1 hsl (by simpa using hbl)
        obtain ⟨s2, h2, hA2, hB2, hC2⟩ := ihr s1 herr1
        simp only [herr1, Option.isSome_none, Bool.false_eq_true, if_false, h2]
        by_cases hsr : supportedShapes rhs = true
        · by_cases hbr : hasBadOp rhs = true
          · -- a bad operator inside the right operand
            obtain ⟨op', hop1, hop2, hop3⟩ := hB2 hsr hbr
            refine ⟨s2, by simp [hop3], ?_, ?_, ?_⟩
            · intro _ habs
              rw [hasBadOp] at habs
              simp [hbr] at habs
            · intro _ _
              exact ⟨op', hop1, by simp [opOccurs, hop2], hop3⟩
            · intro _
              simp [hop3]
          · -- both operands clean: two nodes on the stack
            obtain ⟨herr2, r, hr, hn2⟩ := hA2 hsr (by simpa using hbr)
            simp only [herr2, Option.isSome_none, Bool.false_eq_true, if_false]
            rw [hn2, hn1]
            cases hcomp : mapOpToComparison op with
            | some comp =>
              refine ⟨_, rfl, ?_, ?_, ?_⟩
              · intro _ _
                refine ⟨rfl, _, ?_, rfl⟩
                exact nodeArityOK_two _ _ _ _ rfl hl hr
              · intro _ habs
                rw [hasBadOp] at habs
                simp [supportedOp, hcomp, hsl, hbl, hsr, hbr] at habs
              · intro habs
                rw [supportedShapes] at habs
                simp [hsl, hsr] at habs
            | none =>
              by_cases hao : op = Token.AND ∨ op = Token.OR
              · rw [if_pos hao]
                refine ⟨_, rfl, ?_, ?_, ?_⟩
                · intro _ _
                  refine ⟨rfl, _, ?_, rfl⟩
                  exact nodeArityOK_two _ _ _ _ rfl hl hr
                · intro _ habs
                  rw [hasBadOp] at habs
                  have hsup : supportedOp op = true := by
                    rcases hao with h | h <;> simp [supportedOp, h]
                  simp [hsup, hbl, hbr] at habs
                · intro habs
                  rw [supportedShapes] at habs
                  simp [hsl, hsr] at habs
              · rw [if_neg hao]
                push_neg at hao
                have hsup : supportedOp op = false := by
                  simp [supportedOp, hcomp, hao.1, hao.2]
                refine ⟨_, rfl, ?_, ?_, ?_⟩
                · intro _ habs
                  rw [hasBadOp] at habs
                  simp [hsup] at habs
                · intro _ _
                  exact ⟨op, hsup, by simp [opOccurs], rfl⟩
                · intro habs
                  rw [supportedShapes] at habs
                  simp [hsl, hsr] at habs
        · -- unsupported shape inside the right operand
          have hsr' : supportedShapes rhs = false := by simpa using hsr
          have hiss := hC2 hsr'
          obtain ⟨msg, hmsg⟩ := Option.isSome_iff_exists.mp hiss
          refine ⟨s2, by simp [hmsg], ?_, ?_, ?_⟩
          · intro habs _
            rw [supportedShapes] at habs
            simp [hsr'] at habs
          · intro habs _
            rw [supportedShapes] at habs
            simp [hsr'] at habs
          · intro _
            simp [hmsg]
    · -- unsupported shape inside the left operand
      have hsl' : supportedShapes lhs = false := by simpa using hsl
      have hiss := hC1 hsl'
      obtain ⟨msg, hmsg⟩ := Option.isSome_iff_exists.mp hiss
      refine ⟨s1, by simp [hmsg], ?_, ?_, ?_⟩
      · intro habs _
        rw [supportedShapes] at habs
        simp [hsl'] at habs
      · intro habs _
        rw [supportedShapes] at habs
        simp [hsl'] at habs
      · intro _
        simp [hmsg]
  | paren e ih =>
    intro s hs
    obtain ⟨s1, h1, hA1, hB1, hC1⟩ := ih s hs
    simp only [visit, h1]
    by_cases hse : supportedShapes e = true
    · by_cases hbe : hasBadOp e = true
      · obtain ⟨op', hop1, hop2, hop3⟩ := hB1 hse hbe
        refine ⟨s1, by simp [hop3], ?_, ?_, ?_⟩
        · intro _ habs
          rw [hasBadOp] at habs
          simp [hbe] at habs
        · intro _ _
          exact ⟨op', hop1, by simpa [opOccurs] using hop2, hop3⟩
        · intro habs
          rw [supportedShapes] at habs
          simp [hse] at habs
      · obtain ⟨herr1, n, hn, hn1⟩ := hA1 hse (by simpa using hbe)
        simp only [herr1, Option.isSome_none, Bool.false_eq_true, if_false]
        rw [hn1]
        refine ⟨_, rfl, ?_, ?_, ?_⟩
        · intro _ _
          refine ⟨rfl, _, ?_, rfl⟩
          exact nodeArityOK_one _ _ _ rfl hn
        · intro _ habs
          rw [hasBadOp] at habs
          simp [hbe] at habs
        · intro habs
          rw [supportedShapes] at habs
          simp [hse] at habs
    · have hse' : supportedShapes e = false := by simpa using hse
      have hiss := hC1 hse'
      obtain ⟨msg, hmsg⟩ := Option.isSome_iff_exists.mp hiss
      refine ⟨s1, by simp [hmsg], ?_, ?_, ?_⟩
      · intro habs _
        rw [supportedShapes] at habs
        simp [hse'] at habs
      · intro habs _
        rw [supportedShapes] at habs
        simp [hse'] at habs
      · intro _
        simp [hmsg]
  | stringLit v =>
    intro s hs
    refine ⟨_, by rw [visit], ?_, ?_, ?_⟩
    · intro _ _
      exact ⟨hs, Node.node NodeType.literal (some (NodeValue.stringValue v)) [],
        nodeArityOK_zero _ _ rfl, rfl⟩
    · intro _ habs
      have hx : hasBadOp (Expr.stringLit v) = false := rfl
      rw [hx] at habs
      exact absurd habs (by simp)
    · intro habs
      have hx : supportedShapes (Expr.stringLit v) = true := rfl
      rw [hx] at habs
      exact absurd habs (by simp)
  | numberLit bits =>
    intro s hs
    refine ⟨_, by rw [visit], ?_, ?_, ?_⟩
    · intro _ _
      exact ⟨hs, Node.node NodeType.literal (some (NodeValue.floatValue bits)) [],
        nodeArityOK_zero _ _ rfl, rfl⟩
    · intro _ habs
      have hx : hasBadOp (Expr.numberLit bits) = false := rfl
      rw [hx] at habs
      exact absurd habs (by simp)
    · intro habs
      have hx : supportedShapes (Expr.numberLit bits) = true := rfl
      rw [hx] at habs
      exact absurd habs (by simp)
  | integerLit v =>
    intro s hs
    refine ⟨_, by rw [visit], ?_, ?_, ?_⟩
    · intro _ _
      exact ⟨hs, Node.node NodeType.literal (some (NodeValue.integerValue v)) [],
        nodeArityOK_zero _ _ rfl, rfl⟩
    · intro _ habs
      have hx : hasBadOp (Expr.integerLit v) = false := rfl
      rw [hx] at habs
      exact absurd habs (by simp)
    · intro habs
      have hx : supportedShapes (Expr.integerLit v) = true := rfl
      rw [hx] at habs
      exact absurd habs (by simp)
  | unsignedLit v =>
    intro s hs
    refine ⟨_, by rw [visit], ?_, ?_, ?_⟩
    · intro _ _
      exact ⟨hs, Node.node NodeType.literal (some (NodeValue.unsignedValue v)) [],
        nodeArityOK_zero _ _ rfl, rfl⟩
    · intro _ habs
      have hx : hasBadOp (Expr.unsignedLit v) = false := rfl
      rw [hx] at habs
      exact absurd habs (by simp)
    · intro habs
      have hx : supportedShapes (Expr.unsignedLit v) = true := rfl
      rw [hx] at habs
      exact absurd habs (by simp)
  | varRef v =>
    intro s hs
    refine ⟨_, by rw [visit], ?_, ?_, ?_⟩
    · intro _ _
      exact ⟨hs, Node.node NodeType.tagRef (some (NodeValue.tagRefValue v)) [],
        nodeArityOK_zero _ _ rfl, rfl⟩
    · intro _ habs
      have hx : hasBadOp (Expr.varRef v) = false := rfl
      rw [hx] at habs
      exact absurd habs (by simp)
    · intro habs
      have hx : supportedShapes (Expr.varRef v) = true := rfl
      rw [hx] at habs
      exact absurd habs (by simp)
  | other =>
    intro s _
    refine ⟨_, by rw [visit], ?_, ?_, ?_⟩
    · intro habs _
      have hx : supportedShapes Expr.other = false := rfl
      rw [hx] at habs
      exact absurd habs (by simp)
    · intro habs _
      have hx : supportedShapes Expr.other = false := rfl
      rw [hx] at habs
      exact absurd habs (by simp)
    · intro _
      rfl

/-- C2: every successful run of the predicate compiler from the empty state
leaves exactly one node on the operand stack — the root of the produced wire
tree — and the whole tree satisfies the arity invariant: comparison and
logical nodes have exactly two children `[left, right]`, parenthesization
nodes exactly one child, literal and tag-reference nodes none. -/
theorem visit_success_single_arity_ok (e : Expr) (s' : VisitorState)
    (h : visit ⟨[], none⟩ e = some s') (herr : s'.err = none) :
    ∃ n, nodeArityOK n = true ∧ s'.nodes = [n] := by
  obtain ⟨s'', h'', hA, hB, hC⟩ := visit_master e ⟨[], none⟩ rfl
  rw [h] at h''
  injection h'' with heq
  subst heq
  by_cases hse : supportedShapes e = true
  · by_cases hbe : hasBadOp e = true
    · obtain ⟨op, _, _, hop3⟩ := hB hse hbe
      rw [hop3] at herr
      exact absurd herr (by simp)
    · obtain ⟨_, n, hn, hnodes⟩ := hA hse (by simpa using hbe)
      exact ⟨n, hn, hnodes⟩
  · have hiss := hC (by simpa using hse)
    rw [herr] at hiss
    exact absurd hiss (by simp)

/-- The spec's example predicate `a = 1 AND (b != "x" OR c > 2)`. -/
def exprEx : Expr :=
  Expr.binary Token.AND
    (Expr.binary Token.EQ (Expr.varRef "a") (Expr.integerLit 1))
    (Expr.paren (Expr.binary Token.OR
      (Expr.binary Token.NEQ (Expr.varRef "b") (Expr.stringLit "x"))
      (Expr.binary Token.GT (Expr.varRef "c") (Expr.integerLit 2))))

/-- The wire tree the compiler produces for `exprEx`. -/
def exprExNode : Node :=
  Node.node NodeType.logicalExpression (some (NodeValue.logical Logical.and))
    [Node.node NodeType.comparisonExpression
      (some (NodeValue.comparison Comparison.equal))
      [Node.node NodeType.tagRef (some (NodeValue.tagRefValue "a")) [],
       Node.node NodeType.literal (some (NodeValue.integerValue 1)) []],
     Node.node NodeType.parenExpression none
      [Node.node NodeType.logicalExpression
        (some (NodeValue.logical Logical.or))
        [Node.node NodeType.comparisonExpression
          (some (NodeValue.comparison Comparison.notEqual))
          [Node.node NodeType.tagRef (some (NodeValue.tagRefValue "b")) [],
           Node.node NodeType.literal (some (NodeValue.stringValue "x")) []],
         Node.node NodeType.comparisonExpression
          (some (NodeValue.comparison Comparison.greater))
          [Node.node NodeType.tagRef (some (NodeValue.tagRefValue "c")) [],
           Node.node NodeType.literal (some (NodeValue.integerValue 2)) []]]]]

/-- Witness for C2 at the spec's example predicate. -/
theorem visit_success_single_arity_ok_witness :
    ∃ n, nodeArityOK n = true ∧
      (VisitorState.mk [exprExNode] none).nodes = [n] :=
  visit_success_single_arity_ok exprEx ⟨[exprExNode], none⟩ (by decide) rfl

/-- C7 counterexample: an expression containing the unsupported operator `+`
whose left operand is itself an unsupported shape (any expression hitting the
visitor's default case, e.g. a regex literal).  The visitor records
`unsupported expression` for that operand before ever examining the
operator, so compilation fails, but not with the unsupported-operator
message naming `+`. -/
theorem visit_unsupported_operator_cex :
    hasBadOp (Expr.binary Token.ADD Expr.other (Expr.varRef "x")) = true ∧
    visit ⟨[], none⟩ (Expr.binary Token.ADD Expr.other (Expr.varRef "x")) =
      some ⟨[], some "unsupported expression"⟩ ∧
    some "unsupported expression" ≠
      some ("unsupported operator, " ++ tokenString Token.ADD) :=
  ⟨by decide, by decide, by decide⟩

/-- C7 (amended): for every expression built solely from supported shapes
(binary expressions, parentheses, the four literal kinds, tag references)
containing a binary operator that is neither one of the six comparisons nor
AND nor OR, compilation fails, recording the error message
`unsupported operator, ` followed by the text of such an operator occurring
in the expression. -/
theorem visit_unsupported_operator (e : Expr)
    (hshapes : supportedShapes e = true) (hbad : hasBadOp e = true) :
    ∃ s' op, visit ⟨[], none⟩ e = some s' ∧ supportedOp op = false ∧
      opOccurs op e = true ∧
      s'.err = some ("unsupported operator, " ++ tokenString op) := by
  obtain ⟨s', h, _, hB, _⟩ := visit_master e ⟨[], none⟩ rfl
  obtain ⟨op, h1, h2, h3⟩ := hB hshapes hbad
  exact ⟨s', op, h, h1, h2, h3⟩

/-- Witness for C7 (amended) at `x + 1`. -/
theorem visit_unsupported_operator_witness :
    ∃ s' op, visit ⟨[], none⟩
        (Expr.binary Token.ADD (Expr.varRef "x") (Expr.integerLit 1)) =
        some s' ∧ supportedOp op = false ∧
      opOccurs op (Expr.binary Token.ADD (Expr.varRef "x")
        (Expr.integerLit 1)) = true ∧
      s'.err = some ("unsupported operator, " ++ tokenString op) :=
  visit_unsupported_operator _ (by decide) (by decide)

end Storage
